import Mathlib

/-!
Verification of the `restForm` jQuery extension (src/sleepyForm.js).

The development shallowly embeds the plugin's data handling and control
flow:

* JavaScript objects used as string-keyed maps (`dataObj`,
  `settings.data`, `settings.fieldHandlers`) are embedded as association
  lists in insertion order, with `objSet` modelling `obj[k] = v`
  (replacing in place, appending fresh keys) and `objGet` modelling
  property lookup.
* `getFormData` is a direct translation of the source function of the
  same name: the DOM loop over `self.serializeArray()` with its literal
  exclusion guard `!settings.excludeFields.length &&
  $.inArray(name, excludeFields) == -1`, the `fieldHandlers` overlay,
  the `$.extend(dataObj, settings.data)` merge, and the final
  `prepareData` hook.
* The `$.ajax` error callback, `errorsCallback`, and the helper
  `getJSONObject` are embedded as functions producing the list of
  observable calls they make.  `getJSONObject`'s body resolves the
  identifier `jqXHR` against its lexical scope, which is modelled
  explicitly, because the source references that name even though it is
  not bound anywhere in the enclosing scopes.
* The `.submit(...)` handler's sequencing is embedded as the list of
  steps it performs in order (`submitHandlerSteps`).
* The submit-during-request behaviour is embedded as a small transition
  system over a form state (button disabled flag, outstanding and
  issued request counters).
* The default `serializeData` (`JSON.stringify` on the flat string map
  the plugin produces) is embedded together with a JSON parser for that
  fragment, to state the serialize/parse round trip.
-/

namespace SleepyForm

/-! ## JavaScript objects as association lists -/

/-- Property lookup `m[k]` on a JavaScript object embedded as an
association list (first binding wins; `objSet` keeps keys unique). -/
def objGet (m : List (String × α)) (k : String) : Option α :=
  (m.find? (fun p => p.1 == k)).map (fun p => p.2)

/-- Property assignment `m[k] = v` on a JavaScript object: an existing
key keeps its position and gets the new value, a fresh key is appended
(JavaScript string-keyed property insertion order). -/
def objSet (m : List (String × α)) (k : String) (v : α) : List (String × α) :=
  if m.any (fun p => p.1 == k) then
    m.map (fun p => if p.1 == k then (k, v) else p)
  else
    m ++ [(k, v)]

/-- Fold a list of key/value assignments over an object, left to right
(the shape of every object-building loop in `getFormData`). -/
def applyAll (init : List (String × α)) (l : List (String × α)) : List (String × α) :=
  l.foldl (fun acc p => objSet acc p.1 p.2) init

theorem objGet_cons (q : String × α) (l : List (String × α)) (k : String) :
    objGet (q :: l) k = if q.1 == k then some q.2 else objGet l k := by
  by_cases h : (q.1 == k) = true
  · simp [objGet, List.find?_cons_of_pos, h]
  · simp [objGet, List.find?_cons_of_neg, h]

theorem objGet_map_setfn_self (m : List (String × α)) (k : String) (v : α)
    (h : (m.any fun p => p.1 == k) = true) :
    objGet (m.map fun p => if p.1 == k then (k, v) else p) k = some v := by
  induction m with
  | nil => simp at h
  | cons p m ih =>
    by_cases hp : (p.1 == k) = true
    · have hpk : p.1 = k := by simpa using hp
      simp [List.map_cons, if_pos hp, objGet_cons, hpk]
    · simp only [List.any_cons, hp, Bool.false_or] at h
      rw [List.map_cons, if_neg hp, objGet_cons, if_neg hp]
      exact ih h

theorem objGet_map_setfn_ne (m : List (String × α)) (k k' : String) (v : α)
    (h : k' ≠ k) :
    objGet (m.map fun p => if p.1 == k then (k, v) else p) k' = objGet m k' := by
  induction m with
  | nil => rfl
  | cons p m ih =>
    by_cases hp : (p.1 == k) = true
    · have hpk : p.1 = k := by simpa using hp
      have h1 : ((k : String) == k') = false := by
        simpa using fun hkk => h hkk.symm
      rw [List.map_cons, if_pos hp, objGet_cons, objGet_cons]
      simp only [hpk, h1, Bool.false_eq_true, if_false]
      exact ih
    · rw [List.map_cons, if_neg hp, objGet_cons, objGet_cons]
      by_cases hq : (p.1 == k') = true
      · simp [hq]
      · rw [if_neg hq, if_neg hq]
        exact ih

theorem objGet_objSet_self (m : List (String × α)) (k : String) (v : α) :
    objGet (objSet m k v) k = some v := by
  unfold objSet
  split
  case isTrue h => exact objGet_map_setfn_self m k v h
  case isFalse h =>
    have hnone : (m.find? (fun p => p.1 == k)) = none := by
      rw [List.find?_eq_none]
      intro x hx
      intro hbad
      exact h (List.any_eq_true.mpr ⟨x, hx, hbad⟩)
    simp [objGet, List.find?_append, hnone]

theorem objGet_objSet_ne (m : List (String × α)) (k k' : String) (v : α)
    (h : k' ≠ k) : objGet (objSet m k v) k' = objGet m k' := by
  unfold objSet
  split
  case isTrue _ => exact objGet_map_setfn_ne m k k' v h
  case isFalse _ =>
    by_cases hq : (m.find? (fun p => p.1 == k')).isSome
    · rcases Option.isSome_iff_exists.mp hq with ⟨p, hp⟩
      simp [objGet, List.find?_append, hp]
    · have hnone : (m.find? (fun p => p.1 == k')) = none :=
        Option.not_isSome_iff_eq_none.mp hq
      have h1 : ¬ ((k : String) == k') = true := by
        simpa using fun hkk => h hkk.symm
      simp [objGet, List.find?_append, hnone, h1]

theorem objGet_append (l₁ l₂ : List (String × α)) (k : String) :
    objGet (l₁ ++ l₂) k = (objGet l₁ k).or (objGet l₂ k) := by
  unfold objGet
  rw [List.find?_append]
  cases l₁.find? (fun p => p.1 == k) <;> simp

/-- Looking a key up in the object built by a left-to-right assignment
fold: the last assignment for that key wins, falling back to the
initial object. -/
theorem objGet_applyAll (init : List (String × α)) (l : List (String × α))
    (k : String) :
    objGet (applyAll init l) k =
      (objGet l.reverse k).or (objGet init k) := by
  induction l generalizing init with
  | nil => simp [applyAll, objGet]
  | cons p l ih =>
    have step : applyAll init (p :: l) = applyAll (objSet init p.1 p.2) l := rfl
    rw [step, ih]
    have hrev : (p :: l).reverse = l.reverse ++ [p] := by simp
    rw [hrev, objGet_append, Option.or_assoc]
    by_cases hpk : p.1 = k
    · have hsingleton : objGet [p] k = some p.2 := by
        simp [objGet_cons, hpk, objGet]
      rw [hsingleton, ← hpk, objGet_objSet_self]
      cases objGet l.reverse k <;> simp
    · have hsingleton : objGet [p] k = none := by
        have hne : ¬ ((p.1 : String) == k) = true := by simpa using hpk
        simp [objGet_cons, hne, objGet]
      have hkp : k ≠ p.1 := fun hkk => hpk hkk.symm
      rw [hsingleton, objGet_objSet_ne _ _ _ _ hkp, Option.none_or]

theorem objGet_eq_none_iff (m : List (String × α)) (k : String) :
    objGet m k = none ↔ ∀ p ∈ m, p.1 ≠ k := by
  unfold objGet
  rw [Option.map_eq_none', List.find?_eq_none]
  constructor
  · intro h p hp
    intro hbad
    exact h p hp (by simpa using hbad)
  · intro h p hp
    simpa using h p hp

/-- With unique keys (every JavaScript object literal), lookup in the
reversed list agrees with ordinary lookup. -/
theorem objGet_reverse_of_nodup (m : List (String × α)) (k : String)
    (h : (m.map Prod.fst).Nodup) : objGet m.reverse k = objGet m k := by
  induction m with
  | nil => rfl
  | cons p m ih =>
    simp only [List.map_cons, List.nodup_cons] at h
    obtain ⟨hp, hm⟩ := h
    rw [List.reverse_cons]
    by_cases hpk : p.1 == k
    · have hpk' : p.1 = k := by simpa using hpk
      have hnone : objGet m k = none := by
        rw [objGet_eq_none_iff]
        intro q hq hqk
        have hkmem : k ∈ List.map Prod.fst m := hqk ▸ List.mem_map_of_mem Prod.fst hq
        rw [hpk'] at hp
        exact hp hkmem
      have hnonerev : objGet m.reverse k = none := by
        rw [objGet_eq_none_iff]
        intro q hq hqk
        exact (objGet_eq_none_iff m k).mp hnone q (List.mem_reverse.mp hq) hqk
      unfold objGet at hnonerev ⊢
      have hfind : (m.reverse.find? (fun q => q.1 == k)) = none :=
        Option.map_eq_none'.mp hnonerev
      simp [List.find?_append, hfind, hpk]
    · unfold objGet at ih ⊢
      by_cases hq : (m.reverse.find? (fun q => q.1 == k)).isSome
      · rcases Option.isSome_iff_exists.mp hq with ⟨q, hqe⟩
        simp [List.find?_append, hqe, hpk, ← ih hm]
      · have hnone : (m.reverse.find? (fun q => q.1 == k)) = none :=
          Option.not_isSome_iff_eq_none.mp hq
        simp [List.find?_append, hnone, hpk, ← ih hm]

/-! ## Field handlers and `getFormData` -/

/-- A custom field handler from `settings.fieldHandlers`.

`clear` records `hasOwnProperty('clear')` (the check used by
`beforeSubmitCallback`), `hasError` records truthiness of the `error`
property (the check used by `errorsCallback`), and `data` is `some v`
when the handler has a truthy `data` function whose call returns `v`
(the check and call in `getFormData`). -/
structure FieldHandler (α : Type) where
  clear : Bool
  hasError : Bool
  data : Option α
  deriving DecidableEq

/-- Translation of `getFormData` (src/sleepyForm.js, lines 126-159).

Arguments stand for the values the source reads:
`formData` is `self.serializeArray()` (the form's named fields with
their DOM values, in document order), `excludeFields`, `fieldHandlers`
and `staticData` are `settings.excludeFields`, `settings.fieldHandlers`
and `settings.data`, and `prepareData` is `settings.prepareData`.

The DOM loop guard is the source's literal
`!settings.excludeFields.length && $.inArray(formData[i].name, settings.excludeFields) == -1`:
`!length` is truthy exactly when the exclusion list is empty, and
`$.inArray(x, a) == -1` exactly when `x` is not an element of `a`. -/
def getFormData (formData : List (String × α)) (excludeFields : List String)
    (fieldHandlers : List (String × FieldHandler α))
    (staticData : List (String × α))
    (prepareData : List (String × α) → List (String × α)) :
    List (String × α) :=
  let dataObj : List (String × α) := []
  let dataObj := formData.foldl
    (fun acc p =>
      if excludeFields.length = 0 ∧ excludeFields.contains p.1 = false then
        objSet acc p.1 p.2
      else acc)
    dataObj
  let dataObj := fieldHandlers.foldl
    (fun acc p =>
      match p.2.data with
      | some d => objSet acc p.1 d
      | none => acc)
    dataObj
  let dataObj := staticData.foldl (fun acc p => objSet acc p.1 p.2) dataObj
  prepareData dataObj

/-- The default `settings.prepareData`: `function (dataObj) { return dataObj; }`. -/
def prepareDataDefault (dataObj : List (String × α)) : List (String × α) :=
  dataObj

/-- The DOM-derived entries that survive the source's exclusion guard. -/
def domEntries (formData : List (String × α)) (excludeFields : List String) :
    List (String × α) :=
  formData.filter
    (fun p => decide (excludeFields.length = 0 ∧ excludeFields.contains p.1 = false))

/-- The entries contributed by field handlers exposing a truthy `data`. -/
def handlerEntries (fieldHandlers : List (String × FieldHandler α)) :
    List (String × α) :=
  fieldHandlers.filterMap (fun p => (p.2.data).map (fun d => (p.1, d)))

theorem foldl_guard_eq_applyAll (formData : List (String × α))
    (excludeFields : List String) (init : List (String × α)) :
    formData.foldl
      (fun acc p =>
        if excludeFields.length = 0 ∧ excludeFields.contains p.1 = false then
          objSet acc p.1 p.2
        else acc)
      init
      = applyAll init (domEntries formData excludeFields) := by
  induction formData generalizing init with
  | nil => rfl
  | cons p l ih =>
    by_cases h : excludeFields.length = 0 ∧ excludeFields.contains p.1 = false
    · simp only [List.foldl_cons, if_pos h, domEntries, List.filter_cons,
        decide_eq_true h]
      exact ih (objSet init p.1 p.2)
    · simp only [List.foldl_cons, if_neg h, domEntries, List.filter_cons]
      rw [decide_eq_false h]
      exact ih init

theorem foldl_handlers_eq_applyAll (fieldHandlers : List (String × FieldHandler α))
    (init : List (String × α)) :
    fieldHandlers.foldl
      (fun acc p =>
        match p.2.data with
        | some d => objSet acc p.1 d
        | none => acc)
      init
      = applyAll init (handlerEntries fieldHandlers) := by
  induction fieldHandlers generalizing init with
  | nil => rfl
  | cons p l ih =>
    cases hd : p.2.data with
    | some d =>
      simp only [List.foldl_cons, hd, handlerEntries, List.filterMap_cons, hd,
        Option.map_some']
      exact ih (objSet init p.1 d)
    | none =>
      simp only [List.foldl_cons, hd, handlerEntries, List.filterMap_cons, hd,
        Option.map_none']
      exact ih init

/-- `getFormData` decomposed into the three assignment folds it performs. -/
theorem getFormData_eq (formData : List (String × α)) (excludeFields : List String)
    (fieldHandlers : List (String × FieldHandler α))
    (staticData : List (String × α))
    (prepareData : List (String × α) → List (String × α)) :
    getFormData formData excludeFields fieldHandlers staticData prepareData =
      prepareData
        (applyAll
          (applyAll
            (applyAll [] (domEntries formData excludeFields))
            (handlerEntries fieldHandlers))
          staticData) := by
  simp only [getFormData, foldl_guard_eq_applyAll, foldl_handlers_eq_applyAll,
    applyAll]

/-- Lookup in the full `getFormData` result (with the default, identity,
`prepareData`): static data first, then handler data, then the
DOM-derived entries that survived the exclusion guard. -/
theorem objGet_getFormData (formData : List (String × α))
    (excludeFields : List String)
    (fieldHandlers : List (String × FieldHandler α))
    (staticData : List (String × α)) (k : String) :
    objGet (getFormData formData excludeFields fieldHandlers staticData
        prepareDataDefault) k =
      ((objGet staticData.reverse k).or
        ((objGet (handlerEntries fieldHandlers).reverse k).or
          (objGet (domEntries formData excludeFields).reverse k))) := by
  rw [getFormData_eq]
  show objGet (applyAll (applyAll (applyAll [] _) _) _) k = _
  rw [objGet_applyAll, objGet_applyAll, objGet_applyAll]
  simp [objGet, Option.or_none]

theorem objGet_of_mem_nodup (l : List (String × α)) (k : String) (d : α)
    (hmem : (k, d) ∈ l) (hnodup : (l.map Prod.fst).Nodup) :
    objGet l k = some d := by
  induction l with
  | nil => cases hmem
  | cons p l ih =>
    simp only [List.map_cons, List.nodup_cons] at hnodup
    obtain ⟨hp, hl⟩ := hnodup
    rcases List.mem_cons.mp hmem with hhead | htail
    · rw [← hhead, objGet_cons]
      simp
    · have hpk : p.1 ≠ k := by
        intro hbad
        have : k ∈ List.map Prod.fst l := by
          exact (show ((k, d).1 : String) ∈ _ from List.mem_map_of_mem Prod.fst htail)
        rw [hbad] at hp
        exact hp this
      rw [objGet_cons, if_neg (by simpa using hpk)]
      exact ih htail hl

/-! ## Claims C1, C7, C10 about `getFormData` -/

/-- C1: the claim says a named field's DOM value is included exactly
when its name is not in `excludeFields`, per-field and independent of
whether the list is empty.  The code violates it: its guard
`!settings.excludeFields.length && ...` is false for every field as
soon as the exclusion list is non-empty, so a non-empty exclusion list
drops every DOM-derived field (here: the payload is empty with no
handlers and no static data, whatever `formData` holds). -/
theorem getFormData_nonempty_excludeFields_drops_dom
    (formData : List (String × α)) (excludeFields : List String)
    (hex : excludeFields ≠ []) :
    getFormData formData excludeFields [] [] prepareDataDefault = [] := by
  rw [getFormData_eq]
  have hdom : domEntries formData excludeFields = [] := by
    unfold domEntries
    rw [List.filter_eq_nil_iff]
    intro p _
    simp only [decide_eq_true_eq, not_and]
    intro h0
    exact absurd (List.length_eq_zero.mp h0) hex
  rw [hdom]
  rfl

/-- Witness for C1's theorem: with `excludeFields = ["password"]`, the
field `username` (not in the exclusion list) is nevertheless dropped. -/
theorem getFormData_nonempty_excludeFields_drops_dom_witness :
    (["password"] ≠ ([] : List String)) ∧
      getFormData [("username", "abc")] ["password"]
        ([] : List (String × FieldHandler String)) [] prepareDataDefault = [] :=
  ⟨by decide,
    getFormData_nonempty_excludeFields_drops_dom [("username", "abc")]
      ["password"] (by decide)⟩

/-- C7: precedence in the payload produced by `getFormData` (with the
default, identity, `prepareData`) is static data over handler data over
DOM-derived data: a key present in `settings.data` gets that value no
matter what; otherwise a key with a truthy handler `data()` gets the
handler's value; otherwise the key falls back to the DOM-derived
entries that survived the exclusion guard. -/
theorem getFormData_precedence (formData : List (String × α))
    (excludeFields : List String)
    (fieldHandlers : List (String × FieldHandler α))
    (staticData : List (String × α)) (k : String) (v : α)
    (hsd : (staticData.map Prod.fst).Nodup)
    (hfh : ((handlerEntries fieldHandlers).map Prod.fst).Nodup) :
    (objGet staticData k = some v →
      objGet (getFormData formData excludeFields fieldHandlers staticData
        prepareDataDefault) k = some v)
    ∧ (objGet staticData k = none →
        objGet (handlerEntries fieldHandlers) k = some v →
        objGet (getFormData formData excludeFields fieldHandlers staticData
          prepareDataDefault) k = some v)
    ∧ (objGet staticData k = none →
        objGet (handlerEntries fieldHandlers) k = none →
        objGet (getFormData formData excludeFields fieldHandlers staticData
          prepareDataDefault) k =
          objGet (domEntries formData excludeFields).reverse k) := by
  rw [objGet_getFormData, objGet_reverse_of_nodup _ _ hsd,
    objGet_reverse_of_nodup _ _ hfh]
  refine ⟨fun h1 => ?_, fun h1 h2 => ?_, fun h1 h2 => ?_⟩
  · rw [h1]; rfl
  · rw [h1, h2]; rfl
  · rw [h1, h2]; rfl

/-- Witness for C7's theorem: static data wins for `a`, handler data
wins for `b`, and the DOM value remains for `d`. -/
theorem getFormData_precedence_witness :
    objGet (getFormData [("d", "x")] []
        [("b", FieldHandler.mk false false (some "h"))]
        [("a", "s")] prepareDataDefault) "a" = some "s"
    ∧ objGet (getFormData [("d", "x")] []
        [("b", FieldHandler.mk false false (some "h"))]
        [("a", "s")] prepareDataDefault) "b" = some "h" :=
  ⟨(getFormData_precedence [("d", "x")] []
      [("b", FieldHandler.mk false false (some "h"))]
      [("a", "s")] "a" "s" (by decide) (by decide)).1 (by decide),
    (getFormData_precedence [("d", "x")] []
      [("b", FieldHandler.mk false false (some "h"))]
      [("a", "s")] "b" "h" (by decide) (by decide)).2.1 (by decide) (by decide)⟩

/-- C10 as stated is false: the handler-contributed entry is itself
overridden by `settings.data`, which is merged after the handler loop.
With handler `data()` returning `"h"` for key `k` and static data
`{k: "s"}`, the payload maps `k` to `"s"`, not to the handler's
result. -/
theorem handler_data_shadowed_by_static :
    getFormData ([] : List (String × String)) ["k"]
        [("k", FieldHandler.mk false false (some "h"))]
        [("k", "s")] prepareDataDefault = [("k", "s")]
    ∧ ("s" : String) ≠ "h" := by
  constructor
  · rfl
  · decide

/-- C10 amended: for every key `k` of `fieldHandlers` whose handler has
a truthy `data` property and that is not a key of the extra static
data, the payload maps `k` to the handler's `data()` result — even when
`k` is in `excludeFields` and no form field named `k` exists, because
the handler loop is independent of the exclusion list and of the DOM
fields. -/
theorem handler_data_included_despite_exclusion
    (formData : List (String × α)) (excludeFields : List String)
    (fieldHandlers : List (String × FieldHandler α))
    (staticData : List (String × α)) (k : String) (h : FieldHandler α) (d : α)
    (hmem : (k, h) ∈ fieldHandlers) (hdata : h.data = some d)
    (hnodup : ((handlerEntries fieldHandlers).map Prod.fst).Nodup)
    (hstatic : ∀ p ∈ staticData, p.1 ≠ k)
    (hexcl : k ∈ excludeFields) (hdom : ∀ p ∈ formData, p.1 ≠ k) :
    objGet (getFormData formData excludeFields fieldHandlers staticData
      prepareDataDefault) k = some d := by
  rw [objGet_getFormData]
  have hsd : objGet staticData.reverse k = none := by
    rw [objGet_eq_none_iff]
    intro p hp
    exact hstatic p (List.mem_reverse.mp hp)
  have hentry : (k, d) ∈ handlerEntries fieldHandlers := by
    unfold handlerEntries
    exact List.mem_filterMap.mpr ⟨(k, h), hmem, by simp [hdata]⟩
  have hhd : objGet (handlerEntries fieldHandlers).reverse k = some d := by
    rw [objGet_reverse_of_nodup _ _ hnodup]
    exact objGet_of_mem_nodup _ _ _ hentry hnodup
  rw [hsd, hhd]
  rfl

/-- Witness for C10's amended theorem: the handler value for `k`
appears although `k` is excluded and absent from the form. -/
theorem handler_data_included_despite_exclusion_witness :
    ("k" : String) ∈ ["k"] ∧
      objGet (getFormData [("other", "x")] ["k"]
        [("k", FieldHandler.mk false false (some "h"))]
        [("a", "s")] prepareDataDefault) "k" = some "h" :=
  ⟨by decide,
    handler_data_included_despite_exclusion [("other", "x")] ["k"]
      [("k", FieldHandler.mk false false (some "h"))] [("a", "s")]
      "k" (FieldHandler.mk false false (some "h")) "h"
      (by decide) rfl (by decide) (by decide) (by decide) (by decide)⟩

/-! ## The `.submit()` handler's step order (claim C5)

The handler bound by `self.submit(function (e) {...})` performs, in
source order: `e.stopPropagation()`, data collection and serialization
(`settings.serializeData(getFormData())`), then `beforeSubmitCallback()`
(which disables the submit controls when `settings.disableSubmit`,
clears form-wide errors, runs each named field's clear step, and calls
`settings.beforeSubmit()`), then the `$.ajax(...)` dispatch, and
finally `return false`. -/

/-- One observable step of the submit handler. -/
inductive SubmitStep where
  | stopPropagation
  | collectData
  | serializeStep
  | disableSubmitControls
  | clearFormErrorsStep
  | fieldClear (name : String) (viaHandler : Bool)
  | beforeSubmitHook
  | dispatchRequest
  | suppressDefault
  deriving DecidableEq

/-- Whether a field's clear step goes through its handler:
`settings.fieldHandlers[name] && settings.fieldHandlers[name].hasOwnProperty('clear')`. -/
def clearViaHandler (fieldHandlers : List (String × FieldHandler α))
    (name : String) : Bool :=
  match objGet fieldHandlers name with
  | some h => h.clear
  | none => false

/-- Steps performed by `beforeSubmitCallback` (src lines 162-186), in
order: optional submit-control disabling, `settings.clearFormErrors()`,
per-field clear (handler `clear()` or `settings.clearFieldErrors`),
then the `settings.beforeSubmit()` hook. -/
def beforeSubmitCallbackSteps (disableSubmit : Bool) (fieldNames : List String)
    (fieldHandlers : List (String × FieldHandler α)) : List SubmitStep :=
  (if disableSubmit then [SubmitStep.disableSubmitControls] else [])
    ++ [SubmitStep.clearFormErrorsStep]
    ++ fieldNames.map (fun n => SubmitStep.fieldClear n (clearViaHandler fieldHandlers n))
    ++ [SubmitStep.beforeSubmitHook]

/-- Steps performed by the submit handler (src lines 255-321), in
source order. -/
def submitHandlerSteps (disableSubmit : Bool) (fieldNames : List String)
    (fieldHandlers : List (String × FieldHandler α)) : List SubmitStep :=
  [SubmitStep.stopPropagation, SubmitStep.collectData, SubmitStep.serializeStep]
    ++ beforeSubmitCallbackSteps disableSubmit fieldNames fieldHandlers
    ++ [SubmitStep.dispatchRequest, SubmitStep.suppressDefault]

/-- C5 as stated is false on the code: in a concrete run (submit
disabling on, one field `username`, no handlers) the data collection
happens before the error-clearing and before the `beforeSubmit()` hook,
so neither claimed order `clear ... collect` nor `beforeSubmit ...
collect` occurs as a subsequence, although all three steps occur. -/
theorem collect_before_clear_counterexample :
    ¬ List.Sublist [SubmitStep.clearFormErrorsStep, SubmitStep.collectData]
        (submitHandlerSteps true ["username"]
          ([] : List (String × FieldHandler String)))
    ∧ ¬ List.Sublist [SubmitStep.beforeSubmitHook, SubmitStep.collectData]
        (submitHandlerSteps true ["username"]
          ([] : List (String × FieldHandler String)))
    ∧ SubmitStep.clearFormErrorsStep ∈ submitHandlerSteps true ["username"]
        ([] : List (String × FieldHandler String))
    ∧ SubmitStep.beforeSubmitHook ∈ submitHandlerSteps true ["username"]
        ([] : List (String × FieldHandler String))
    ∧ SubmitStep.collectData ∈ submitHandlerSteps true ["username"]
        ([] : List (String × FieldHandler String)) := by
  refine ⟨?_, ?_, ?_, ?_, ?_⟩ <;> decide

theorem submitHandlerSteps_shape (d : Bool) (ns : List String)
    (fh : List (String × FieldHandler α)) :
    submitHandlerSteps d ns fh =
      SubmitStep.stopPropagation :: SubmitStep.collectData ::
        SubmitStep.serializeStep ::
        ((if d then [SubmitStep.disableSubmitControls] else []) ++
          (SubmitStep.clearFormErrorsStep ::
            (ns.map (fun n => SubmitStep.fieldClear n (clearViaHandler fh n)) ++
              [SubmitStep.beforeSubmitHook, SubmitStep.dispatchRequest,
                SubmitStep.suppressDefault]))) := by
  cases d <;> simp [submitHandlerSteps, beforeSubmitCallbackSteps]

theorem count_fieldClear_map (ns : List String)
    (fh : List (String × FieldHandler α)) (x : SubmitStep)
    (hx : ∀ n b, x ≠ SubmitStep.fieldClear n b) :
    (ns.map (fun n => SubmitStep.fieldClear n (clearViaHandler fh n))).count x
      = 0 := by
  rw [List.count_eq_zero]
  intro hmem
  rcases List.mem_map.mp hmem with ⟨n, _, hn⟩
  exact hx n _ hn.symm

/-- C5 amended: in every submission cycle the handler first collects
and serializes the field values, then clears form-wide and per-field
errors, then runs the `beforeSubmit()` hook, and only then dispatches
the request.  Stated as: that chain is a subsequence of the performed
steps, each of its steps occurring exactly once, and every per-field
clear step likewise falls after serialization and before the
`beforeSubmit()` hook. -/
theorem submit_steps_order (disableSubmit : Bool) (fieldNames : List String)
    (fieldHandlers : List (String × FieldHandler α)) :
    List.Sublist
      [SubmitStep.collectData, SubmitStep.serializeStep,
        SubmitStep.clearFormErrorsStep, SubmitStep.beforeSubmitHook,
        SubmitStep.dispatchRequest]
      (submitHandlerSteps disableSubmit fieldNames fieldHandlers)
    ∧ (submitHandlerSteps disableSubmit fieldNames fieldHandlers).count
        SubmitStep.collectData = 1
    ∧ (submitHandlerSteps disableSubmit fieldNames fieldHandlers).count
        SubmitStep.serializeStep = 1
    ∧ (submitHandlerSteps disableSubmit fieldNames fieldHandlers).count
        SubmitStep.clearFormErrorsStep = 1
    ∧ (submitHandlerSteps disableSubmit fieldNames fieldHandlers).count
        SubmitStep.beforeSubmitHook = 1
    ∧ (submitHandlerSteps disableSubmit fieldNames fieldHandlers).count
        SubmitStep.dispatchRequest = 1
    ∧ ∀ n b, SubmitStep.fieldClear n b ∈
          submitHandlerSteps disableSubmit fieldNames fieldHandlers →
        List.Sublist
          [SubmitStep.serializeStep, SubmitStep.fieldClear n b,
            SubmitStep.beforeSubmitHook]
          (submitHandlerSteps disableSubmit fieldNames fieldHandlers) := by
  refine ⟨?_, ?_, ?_, ?_, ?_, ?_, ?_⟩
  · rw [submitHandlerSteps_shape]
    refine List.Sublist.cons _ (List.Sublist.cons₂ _ (List.Sublist.cons₂ _ ?_))
    refine List.Sublist.trans ?_ (List.sublist_append_right _ _)
    refine List.Sublist.cons₂ _ ?_
    refine List.Sublist.trans ?_ (List.sublist_append_right _ _)
    exact List.Sublist.cons₂ _ (List.Sublist.cons₂ _ (List.nil_sublist _))
  · have hM := count_fieldClear_map fieldNames fieldHandlers
      SubmitStep.collectData (by intro n b h; cases h)
    cases disableSubmit <;>
      simp [submitHandlerSteps, beforeSubmitCallbackSteps, List.count_append,
        List.count_cons, hM]
  · have hM := count_fieldClear_map fieldNames fieldHandlers
      SubmitStep.serializeStep (by intro n b h; cases h)
    cases disableSubmit <;>
      simp [submitHandlerSteps, beforeSubmitCallbackSteps, List.count_append,
        List.count_cons, hM]
  · have hM := count_fieldClear_map fieldNames fieldHandlers
      SubmitStep.clearFormErrorsStep (by intro n b h; cases h)
    cases disableSubmit <;>
      simp [submitHandlerSteps, beforeSubmitCallbackSteps, List.count_append,
        List.count_cons, hM]
  · have hM := count_fieldClear_map fieldNames fieldHandlers
      SubmitStep.beforeSubmitHook (by intro n b h; cases h)
    cases disableSubmit <;>
      simp [submitHandlerSteps, beforeSubmitCallbackSteps, List.count_append,
        List.count_cons, hM]
  · have hM := count_fieldClear_map fieldNames fieldHandlers
      SubmitStep.dispatchRequest (by intro n b h; cases h)
    cases disableSubmit <;>
      simp [submitHandlerSteps, beforeSubmitCallbackSteps, List.count_append,
        List.count_cons, hM]
  · intro n b hmem
    have hmemM : SubmitStep.fieldClear n b ∈
        fieldNames.map
          (fun m => SubmitStep.fieldClear m (clearViaHandler fieldHandlers m)) := by
      rw [submitHandlerSteps_shape] at hmem
      cases disableSubmit <;> simpa using hmem
    rcases List.append_of_mem hmemM with ⟨M₁, M₂, hM⟩
    rw [submitHandlerSteps_shape, hM, List.append_assoc]
    refine List.Sublist.cons _ (List.Sublist.cons _ (List.Sublist.cons₂ _ ?_))
    refine List.Sublist.trans ?_ (List.sublist_append_right _ _)
    refine List.Sublist.cons _ ?_
    refine List.Sublist.trans ?_ (List.sublist_append_right M₁ _)
    refine List.Sublist.cons₂ _ ?_
    refine List.Sublist.trans ?_ (List.sublist_append_right M₂ _)
    exact List.Sublist.cons₂ _ (List.nil_sublist _)

/-- Witness for C5's amended theorem at a concrete configuration:
the collect/serialize/clear/hook/dispatch chain, and the position of
the `username` clear step, in an actual run. -/
theorem submit_steps_order_witness :
    List.Sublist
      [SubmitStep.collectData, SubmitStep.serializeStep,
        SubmitStep.clearFormErrorsStep, SubmitStep.beforeSubmitHook,
        SubmitStep.dispatchRequest]
      (submitHandlerSteps true ["username"]
        ([] : List (String × FieldHandler String)))
    ∧ List.Sublist
      [SubmitStep.serializeStep, SubmitStep.fieldClear "username" false,
        SubmitStep.beforeSubmitHook]
      (submitHandlerSteps true ["username"]
        ([] : List (String × FieldHandler String))) :=
  ⟨(submit_steps_order true ["username"]
      ([] : List (String × FieldHandler String))).1,
    (submit_steps_order true ["username"]
      ([] : List (String × FieldHandler String))).2.2.2.2.2.2 "username" false
      (by decide)⟩

/-! ## Submit-during-request behaviour (claim C4)

The plugin's only duplicate-submission guard is UI-level: when
`settings.disableSubmit` is true, `beforeSubmitCallback` sets the
`disabled` attribute on the form's submit controls, and
`afterSubmitCallback` removes it (after a deferred delay) once a
response arrives.  The submit handler itself performs no check: every
submit event that reaches it issues an `$.ajax` request.  A click on a
disabled control produces no submit event (DOM behaviour of disabled
controls); a programmatic trigger such as `$(form).submit()` fires the
handler regardless of the control's disabled state. -/

/-- State of one form instance: whether its submit controls carry the
`disabled` attribute, how many requests are outstanding, and how many
requests have been issued in total. -/
structure FormState where
  buttonsDisabled : Bool
  outstanding : Nat
  issued : Nat
  deriving DecidableEq

/-- Environment events driving the form. -/
inductive Trigger where
  | clickSubmit
  | programmaticSubmit
  | responseArrives
  deriving DecidableEq

/-- The handler's effect on a submit event (src lines 255-321 via
`beforeSubmitCallback`, lines 162-186): issue one request and, when
`disableSubmit` is set, disable the submit controls. -/
def runSubmitHandler (disableSubmit : Bool) (s : FormState) : FormState :=
  { buttonsDisabled := if disableSubmit then true else s.buttonsDisabled,
    outstanding := s.outstanding + 1,
    issued := s.issued + 1 }

/-- One environment step.  A click on a disabled control produces no
submit event; a programmatic trigger always reaches the handler.  A
response (success or error) runs `afterSubmitCallback` (src lines
189-205), which re-enables the controls when `disableSubmit` is set. -/
def step (disableSubmit : Bool) (s : FormState) : Trigger → FormState
  | Trigger.clickSubmit =>
    if s.buttonsDisabled then s else runSubmitHandler disableSubmit s
  | Trigger.programmaticSubmit => runSubmitHandler disableSubmit s
  | Trigger.responseArrives =>
    if s.outstanding = 0 then s
    else
      { buttonsDisabled := if disableSubmit then false else s.buttonsDisabled,
        outstanding := s.outstanding - 1,
        issued := s.issued }

/-- Run a trace of triggers from a state. -/
def runForm (disableSubmit : Bool) (s : FormState) (ts : List Trigger) :
    FormState :=
  ts.foldl (step disableSubmit) s

/-- The initial state: controls enabled, nothing outstanding. -/
def initFormState : FormState :=
  FormState.mk false 0 0

/-- C4 as stated is false on the code: with `disableSubmit` enabled, a
second programmatic submit trigger while the first request is
outstanding reaches the handler (nothing in the handler checks the
outstanding request) and issues a second outbound request, so two
requests are outstanding at once. -/
theorem programmatic_double_submit_two_requests :
    (runForm true initFormState
        [Trigger.programmaticSubmit, Trigger.programmaticSubmit]).issued = 2
    ∧ (runForm true initFormState
        [Trigger.programmaticSubmit, Trigger.programmaticSubmit]).outstanding = 2
    ∧ ¬ (runForm true initFormState
        [Trigger.programmaticSubmit, Trigger.programmaticSubmit]).outstanding ≤ 1 := by
  refine ⟨rfl, rfl, ?_⟩
  decide

/-- C4 amended: with `disableSubmit` enabled, the guard holds for
submit triggers coming through the submit controls: on every trace of
clicks and responses at most one request is outstanding (and while one
is, the controls are disabled, so a further click issues nothing); a
programmatic submit trigger bypasses this UI-level deterrent. -/
theorem click_only_single_flight (ts : List Trigger)
    (h : ∀ t ∈ ts, t ≠ Trigger.programmaticSubmit) :
    (runForm true initFormState ts).outstanding ≤ 1
    ∧ ((runForm true initFormState ts).outstanding = 1 →
        (runForm true initFormState ts).buttonsDisabled = true)
    ∧ ((runForm true initFormState ts).outstanding = 1 →
        step true (runForm true initFormState ts) Trigger.clickSubmit =
          runForm true initFormState ts) := by
  have main : ∀ (ts : List Trigger) (s : FormState),
      (∀ t ∈ ts, t ≠ Trigger.programmaticSubmit) →
      s.outstanding ≤ 1 → (s.outstanding = 1 → s.buttonsDisabled = true) →
      (runForm true s ts).outstanding ≤ 1
        ∧ ((runForm true s ts).outstanding = 1 →
            (runForm true s ts).buttonsDisabled = true) := by
    intro ts
    induction ts with
    | nil => intro s _ h1 h2; exact ⟨h1, h2⟩
    | cons t ts ih =>
      intro s hts h1 h2
      have hts' : ∀ u ∈ ts, u ≠ Trigger.programmaticSubmit :=
        fun u hu => hts u (List.mem_cons_of_mem t hu)
      have hstep : (step true s t).outstanding ≤ 1
          ∧ ((step true s t).outstanding = 1 →
              (step true s t).buttonsDisabled = true) := by
        cases t with
        | clickSubmit =>
          by_cases hd : s.buttonsDisabled
          · simp only [step, if_pos hd]
            exact ⟨h1, h2⟩
          · have hz : s.outstanding = 0 := by
              rcases Nat.lt_or_ge s.outstanding 1 with hlt | hge
              · omega
              · exfalso
                have := h2 (by omega)
                exact hd this
            simp only [step, if_neg hd, runSubmitHandler, hz]
            exact ⟨by omega, fun _ => rfl⟩
        | programmaticSubmit =>
          exact absurd rfl (hts Trigger.programmaticSubmit
            (List.mem_cons_self _ _))
        | responseArrives =>
          by_cases hz : s.outstanding = 0
          · simp only [step, if_pos hz]
            exact ⟨h1, h2⟩
          · simp only [step, if_neg hz]
            refine ⟨by simp; omega, fun hbad => ?_⟩
            exfalso
            simp at hbad
            omega
      exact ih (step true s t) hts' hstep.1 hstep.2
  have res := main ts initFormState h (by decide) (by intro hbad; cases hbad)
  refine ⟨res.1, res.2, fun h1 => ?_⟩
  have hd := res.2 h1
  simp [step, hd]

/-- Witness for C4's amended theorem: a click while the first request
is outstanding leaves the state unchanged; at most one request is ever
outstanding on this click/response trace. -/
theorem click_only_single_flight_witness :
    (∀ t ∈ [Trigger.clickSubmit, Trigger.clickSubmit,
        Trigger.responseArrives, Trigger.clickSubmit],
      t ≠ Trigger.programmaticSubmit)
    ∧ (runForm true initFormState
        [Trigger.clickSubmit, Trigger.clickSubmit,
          Trigger.responseArrives, Trigger.clickSubmit]).outstanding ≤ 1 :=
  ⟨by decide,
    (click_only_single_flight
      [Trigger.clickSubmit, Trigger.clickSubmit,
        Trigger.responseArrives, Trigger.clickSubmit] (by decide)).1⟩

/-! ## Error handling: `getJSONObject`, `errorsCallback`, and the
`$.ajax` error callback (claims C2, C3, C6, C9) -/

/-- JSON values, for response bodies and error payloads. -/
inductive Json where
  | str (s : String)
  | num (n : Int)
  | boolean (b : Bool)
  | null
  | arr (xs : List Json)
  | obj (fields : List (String × Json))

/-- `obj !== null && typeof obj === 'object'`: true for objects and
arrays, false for `null` (which has `typeof` `'object'` but is ruled
out by the explicit null check) and for primitives. -/
def jsTypeofObjectNotNull : Json → Bool
  | Json.obj _ => true
  | Json.arr _ => true
  | _ => false

/-- `$.each(x, ...)` iteration pairs: an object's own properties, or an
array's indices with their elements. -/
def jsonEachPairs : Json → List (String × Json)
  | Json.obj fields => fields
  | Json.arr xs => (xs.enum.map fun p => (toString p.1, p.2))
  | _ => []

/-- A value bound by the lexical environment of `getJSONObject`
(our environment model records each binding's rough shape; none of
these values carries object properties, which suffices because the
reference that matters, `jqXHR`, is not bound at all). -/
inductive JsScopeVal where
  | strVal (s : String)
  | funcVal
  | objVal
  | undefinedVal

/-- The lexical environment of the body of `getJSONObject`
(src lines 235-250): its parameter `jsonString` and hoisted `obj`, the
bindings of the enclosing `restForm` function, the IIFE parameter `$`,
and ambient globals.  `jqXHR` is **not** among them: it is a parameter
of the separate `$.ajax` error callback, and JavaScript resolves
identifiers lexically, not at the call site. -/
def getJSONObjectScope (jsonString : String) : List (String × JsScopeVal) :=
  [("jsonString", JsScopeVal.strVal jsonString),
    ("obj", JsScopeVal.undefinedVal),
    ("getJSONObject", JsScopeVal.funcVal),
    ("errorsCallback", JsScopeVal.funcVal),
    ("afterSubmitCallback", JsScopeVal.funcVal),
    ("beforeSubmitCallback", JsScopeVal.funcVal),
    ("getFormData", JsScopeVal.funcVal),
    ("settings", JsScopeVal.objVal),
    ("options", JsScopeVal.objVal),
    ("self", JsScopeVal.objVal),
    ("$", JsScopeVal.funcVal),
    ("jQuery", JsScopeVal.funcVal),
    ("console", JsScopeVal.objVal),
    ("JSON", JsScopeVal.objVal),
    ("window", JsScopeVal.objVal)]

/-- Identifier resolution: an unbound identifier raises a
`ReferenceError` (modelled as `Except.error ()`). -/
def lookupScopeVar (env : List (String × JsScopeVal)) (x : String) :
    Except Unit JsScopeVal :=
  match env.find? (fun p => p.1 == x) with
  | some p => Except.ok p.2
  | none => Except.error ()

/-- Property access on our modelled scope values: none of them carries
a `responseText` property, so access yields `undefined`. -/
def jsGetProp (v : JsScopeVal) (_name : String) : JsScopeVal :=
  match v with
  | JsScopeVal.strVal _ => JsScopeVal.undefinedVal
  | JsScopeVal.funcVal => JsScopeVal.undefinedVal
  | JsScopeVal.objVal => JsScopeVal.undefinedVal
  | JsScopeVal.undefinedVal => JsScopeVal.undefinedVal

/-- Translation of `getJSONObject` (src lines 235-250).

`parseJSON` is the external `$.parseJSON`, which throws on input it
cannot parse (modelled by `none`).  The `try` block evaluates
`$.parseJSON(jqXHR.responseText)`: resolving the identifier `jqXHR`
against the lexical scope comes first and raises `ReferenceError`
because the name is unbound there — the parameter `jsonString` is never
consulted.  The `catch` returns `false` (modelled as `none`); a parsed
non-null object-typed value would be returned as `some`. -/
def getJSONObject (parseJSON : String → Option Json) (jsonString : String) :
    Option Json :=
  let tryBlock : Except Unit Json :=
    match lookupScopeVar (getJSONObjectScope jsonString) "jqXHR" with
    | Except.error e => Except.error e
    | Except.ok xhr =>
      match jsGetProp xhr "responseText" with
      | JsScopeVal.strVal s =>
        match parseJSON s with
        | some j => Except.ok j
        | none => Except.error ()
      | _ => Except.error ()
  match tryBlock with
  | Except.error _ => none
  | Except.ok obj => if jsTypeofObjectNotNull obj then some obj else none

/-- A routing decision of `errorsCallback` (src lines 208-231). -/
inductive RouteEvent where
  | formWide (v : Json)
  | handlerError (k : String) (v : Json)
  | defaultField (k : String) (v : Json)

/-- Translation of `errorsCallback`: for each key of the error object,
`__all__` goes to `settings.renderFormErrors`, a key with a field
handler exposing a truthy `error` goes to that handler, anything else
to `settings.renderFieldErrors`. -/
def errorsCallback (fieldHandlers : List (String × FieldHandler α))
    (errorObject : Json) : List RouteEvent :=
  (jsonEachPairs errorObject).map fun p =>
    if p.1 == "__all__" then RouteEvent.formWide p.2
    else
      match objGet fieldHandlers p.1 with
      | some h =>
        if h.hasError then RouteEvent.handlerError p.1 p.2
        else RouteEvent.defaultField p.1 p.2
      | none => RouteEvent.defaultField p.1 p.2

/-- The transport's view of a failed request, as the error callback
receives it. -/
structure JqXHR where
  status : Nat
  responseText : String

/-- An observable call made by the `$.ajax` error callback. -/
inductive AjaxEvent where
  | afterSubmitRun
  | routeErrors (errorObject : Json)
  | afterErrorHook (reason : String) (level : Nat)
  | logMessage (msg : String)

/-- Translation of the `$.ajax` error callback (src lines 281-315), as
the ordered list of calls it makes: `afterSubmitCallback()`; then the
`errors !== false` block (routing the parsed body with severity 0);
then — not chained by any `else` to the previous block — either the
`status === 0` branch (severity 1, synthesized
`{'__all__': ['Internet connection Lost']}`) or the `switch` fallback
(severity 2, synthesized `{'__all__': [statusText]}`); then the
`console.log` calls. -/
def ajaxErrorCallback (parseJSON : String → Option Json)
    (fieldHandlers : List (String × FieldHandler α)) (jqXHR : JqXHR)
    (statusText : String) : List AjaxEvent :=
  [AjaxEvent.afterSubmitRun]
    ++ (match getJSONObject parseJSON jqXHR.responseText with
        | some errors =>
          [AjaxEvent.routeErrors errors, AjaxEvent.afterErrorHook statusText 0]
        | none => [])
    ++ (if jqXHR.status = 0 then
          [AjaxEvent.routeErrors
              (Json.obj [("__all__", Json.arr [Json.str "Internet connection Lost"])]),
            AjaxEvent.afterErrorHook statusText 1]
        else
          [AjaxEvent.routeErrors (Json.obj [("__all__", Json.arr [Json.str statusText])]),
            AjaxEvent.afterErrorHook statusText 2])
    ++ [AjaxEvent.logMessage ("AJAX Exception: " ++ statusText)]

/-- The error objects the callback hands to `errorsCallback`, in order. -/
def routedObjects (events : List AjaxEvent) : List Json :=
  events.filterMap fun e =>
    match e with
    | AjaxEvent.routeErrors o => some o
    | _ => none

/-- The severity levels passed to `settings.afterError`, in order. -/
def severityCalls (events : List AjaxEvent) : List Nat :=
  events.filterMap fun e =>
    match e with
    | AjaxEvent.afterErrorHook _ level => some level
    | _ => none

theorem getJSONObject_eq_none (parseJSON : String → Option Json)
    (jsonString : String) :
    getJSONObject parseJSON jsonString = none :=
  rfl

/-- C9: `getJSONObject` returns `false` for every input string — its
body evaluates `jqXHR.responseText` with `jqXHR` unbound in its lexical
scope, so the `try` block always throws and the `catch` returns
`false` — and consequently the `errors !== false` branch of the ajax
error callback is unreachable: no failure is ever reported with
severity 0. -/
theorem getJSONObject_always_false :
    (∀ (parseJSON : String → Option Json) (s : String),
      getJSONObject parseJSON s = none)
    ∧ ∀ (parseJSON : String → Option Json)
        (fieldHandlers : List (String × FieldHandler String))
        (jqXHR : JqXHR) (statusText : String),
        0 ∉ severityCalls
          (ajaxErrorCallback parseJSON fieldHandlers jqXHR statusText) := by
  refine ⟨fun p s => getJSONObject_eq_none p s, ?_⟩
  intro parseJSON fieldHandlers jqXHR statusText
  by_cases h : jqXHR.status = 0 <;>
    simp [ajaxErrorCallback, getJSONObject_eq_none, severityCalls, h]

/-- C2 fails on the code (evaluation at the failing input): a failed
response with HTTP status 400 whose body is a JSON object of field
errors is *not* classified as a structured validation failure.
Whatever `$.parseJSON` would do, the broken `getJSONObject` yields
`false`, so the callback synthesizes `{'__all__': ['error']}` and
reports severity 2; `afterError` runs exactly once, and never with
severity 0. -/
theorem json_body_misclassified_severity2
    (parseJSON : String → Option Json)
    (fieldHandlers : List (String × FieldHandler String)) :
    ajaxErrorCallback parseJSON fieldHandlers
        (JqXHR.mk 400 "\x7b\"password\": [\"too short\"]\x7d") "error"
      = [AjaxEvent.afterSubmitRun,
          AjaxEvent.routeErrors
            (Json.obj [("__all__", Json.arr [Json.str "error"])]),
          AjaxEvent.afterErrorHook "error" 2,
          AjaxEvent.logMessage "AJAX Exception: error"]
    ∧ severityCalls
        (ajaxErrorCallback parseJSON fieldHandlers
          (JqXHR.mk 400 "\x7b\"password\": [\"too short\"]\x7d") "error")
      = [2] := by
  constructor
  · show ajaxErrorCallback parseJSON fieldHandlers _ _ = _
    simp [ajaxErrorCallback, getJSONObject_eq_none]
  · simp [ajaxErrorCallback, getJSONObject_eq_none, severityCalls]

/-- C3 fails on the code: for every failed response — in particular one
whose body parses as a JSON-like object — the parsed object is never
passed to `errorsCallback`, because `getJSONObject` always returns
`false`; the only object routed is the synthesized form-wide one, and
severity 0 is never reported. -/
theorem parsed_body_never_routed (parseJSON : String → Option Json)
    (fieldHandlers : List (String × FieldHandler String)) (jqXHR : JqXHR)
    (statusText : String) :
    routedObjects (ajaxErrorCallback parseJSON fieldHandlers jqXHR statusText)
      = [if jqXHR.status = 0 then
            Json.obj [("__all__", Json.arr [Json.str "Internet connection Lost"])]
          else Json.obj [("__all__", Json.arr [Json.str statusText])]]
    ∧ 0 ∉ severityCalls
        (ajaxErrorCallback parseJSON fieldHandlers jqXHR statusText) := by
  constructor
  · by_cases h : jqXHR.status = 0 <;>
      simp [ajaxErrorCallback, getJSONObject_eq_none, routedObjects, h]
  · by_cases h : jqXHR.status = 0 <;>
      simp [ajaxErrorCallback, getJSONObject_eq_none, severityCalls, h]

/-- C6 as stated is false in one detail: on a status-0 failure the
synthesized message is the code's literal `'Internet connection Lost'`,
not the claimed `"connection lost"`. -/
theorem connection_lost_message_counterexample :
    routedObjects (ajaxErrorCallback (fun _ => none)
        ([] : List (String × FieldHandler String)) (JqXHR.mk 0 "") "error")
      = [Json.obj [("__all__", Json.arr [Json.str "Internet connection Lost"])]]
    ∧ ("Internet connection Lost" : String) ≠ "connection lost" :=
  ⟨rfl, by decide⟩

/-- C6 amended: on every failed response with transport status 0, the
callback synthesizes `{'__all__': ['Internet connection Lost']}` (the
code's literal message), hands exactly that object to `errorsCallback`
— which routes the `__all__` key to the form-wide renderer, exactly as
it would a form-wide validation error — and invokes `afterError` with
severity 1. -/
theorem status_zero_routes_form_wide (parseJSON : String → Option Json)
    (fieldHandlers : List (String × FieldHandler String)) (jqXHR : JqXHR)
    (statusText : String) (h : jqXHR.status = 0) :
    ajaxErrorCallback parseJSON fieldHandlers jqXHR statusText
      = [AjaxEvent.afterSubmitRun,
          AjaxEvent.routeErrors
            (Json.obj [("__all__", Json.arr [Json.str "Internet connection Lost"])]),
          AjaxEvent.afterErrorHook statusText 1,
          AjaxEvent.logMessage ("AJAX Exception: " ++ statusText)]
    ∧ errorsCallback fieldHandlers
        (Json.obj [("__all__", Json.arr [Json.str "Internet connection Lost"])])
      = [RouteEvent.formWide (Json.arr [Json.str "Internet connection Lost"])] := by
  constructor
  · simp [ajaxErrorCallback, getJSONObject_eq_none, h]
  · rfl

/-- Witness for C6's amended theorem at a concrete status-0 response. -/
theorem status_zero_routes_form_wide_witness :
    (JqXHR.mk 0 "").status = 0
    ∧ (ajaxErrorCallback (fun _ => none)
          ([] : List (String × FieldHandler String)) (JqXHR.mk 0 "") "error"
        = [AjaxEvent.afterSubmitRun,
            AjaxEvent.routeErrors
              (Json.obj [("__all__", Json.arr [Json.str "Internet connection Lost"])]),
            AjaxEvent.afterErrorHook "error" 1,
            AjaxEvent.logMessage "AJAX Exception: error"]
      ∧ errorsCallback ([] : List (String × FieldHandler String))
          (Json.obj [("__all__", Json.arr [Json.str "Internet connection Lost"])])
        = [RouteEvent.formWide (Json.arr [Json.str "Internet connection Lost"])]) :=
  ⟨rfl, status_zero_routes_form_wide (fun _ => none) [] (JqXHR.mk 0 "") "error" rfl⟩

/-! ## The default serializer and the server-side parse (claim C8)

The default `settings.serializeData` is `JSON.stringify(data)`, applied
to the flat string-valued object `getFormData` produces.  We embed
`JSON.stringify` for that fragment: the ECMAScript `QuoteJSONString`
escaping of each key and value (`"` and `\` escaped with a backslash,
the control shorts `\b \f \n \r \t`, all other code points below
`U+0020` as `\u00xx` with lowercase hex), entries joined with `,` and
wrapped in braces.  `jsonParseObject` is a JSON parser for flat
string-to-string objects (the counterpart server's parse of such a
body). -/

/-- Lowercase hex digit, as `JSON.stringify` emits in `\u00xx`. -/
def hexDigitChar (n : Nat) : Char :=
  if n < 10 then Char.ofNat (48 + n) else Char.ofNat (87 + n)

/-- Numeric value of a hex digit (JSON accepts both cases). -/
def hexVal (c : Char) : Option Nat :=
  if 48 ≤ c.toNat ∧ c.toNat ≤ 57 then some (c.toNat - 48)
  else if 97 ≤ c.toNat ∧ c.toNat ≤ 102 then some (c.toNat - 87)
  else if 65 ≤ c.toNat ∧ c.toNat ≤ 70 then some (c.toNat - 55)
  else none

/-- `QuoteJSONString` escaping of one character. -/
def escapeChar (c : Char) : List Char :=
  if c = '\"' then ['\\', '\"']
  else if c = '\\' then ['\\', '\\']
  else if c = Char.ofNat 8 then ['\\', 'b']
  else if c = Char.ofNat 12 then ['\\', 'f']
  else if c = Char.ofNat 10 then ['\\', 'n']
  else if c = Char.ofNat 13 then ['\\', 'r']
  else if c = Char.ofNat 9 then ['\\', 't']
  else if c.toNat < 32 then
    ['\\', 'u', '0', '0', hexDigitChar (c.toNat / 16), hexDigitChar (c.toNat % 16)]
  else [c]

/-- `QuoteJSONString` escaping of a character sequence. -/
def escapeList : List Char → List Char
  | [] => []
  | c :: l => escapeChar c ++ escapeList l

/-- A quoted JSON string literal: `'"' + escaped + '"'`. -/
def quoteJSONString (s : String) : String :=
  String.mk ('\"' :: (escapeList s.data ++ ['\"']))

/-- The characters of one `"key":"value"` entry. -/
def entryChars (p : String × String) : List Char :=
  '\"' :: (escapeList p.1.data ++
    ('\"' :: ':' :: '\"' :: (escapeList p.2.data ++ ['\"'])))

/-- Entries joined with `,`. -/
def membersChars : List (String × String) → List Char
  | [] => []
  | [p] => entryChars p
  | p :: ps => entryChars p ++ ',' :: membersChars ps

/-- The default `settings.serializeData`: `JSON.stringify(data)` on the
flat string map, i.e. the comma-joined quoted entries wrapped in
braces. -/
def serializeData (m : List (String × String)) : String :=
  String.mk ('{' :: (membersChars m ++ ['}']))

/-- Parse the remainder of a JSON string literal (after the opening
quote): returns the unescaped content and the input following the
closing quote. -/
def parseString : List Char → Option (List Char × List Char)
  | [] => none
  | c :: rest =>
    if c = '\"' then some ([], rest)
    else if c = '\\' then
      match rest with
      | [] => none
      | e :: rest2 =>
        if e = '\"' then (parseString rest2).map (fun p => ('\"' :: p.1, p.2))
        else if e = '\\' then (parseString rest2).map (fun p => ('\\' :: p.1, p.2))
        else if e = '/' then (parseString rest2).map (fun p => ('/' :: p.1, p.2))
        else if e = 'b' then
          (parseString rest2).map (fun p => (Char.ofNat 8 :: p.1, p.2))
        else if e = 'f' then
          (parseString rest2).map (fun p => (Char.ofNat 12 :: p.1, p.2))
        else if e = 'n' then
          (parseString rest2).map (fun p => (Char.ofNat 10 :: p.1, p.2))
        else if e = 'r' then
          (parseString rest2).map (fun p => (Char.ofNat 13 :: p.1, p.2))
        else if e = 't' then
          (parseString rest2).map (fun p => (Char.ofNat 9 :: p.1, p.2))
        else if e = 'u' then
          match rest2 with
          | h1 :: h2 :: h3 :: h4 :: rest3 =>
            match hexVal h1, hexVal h2, hexVal h3, hexVal h4 with
            | some a, some b, some c2, some d =>
              (parseString rest3).map
                (fun p => (Char.ofNat (((a * 16 + b) * 16 + c2) * 16 + d) :: p.1, p.2))
            | _, _, _, _ => none
          | _ => none
        else none
    else if c.toNat < 32 then none
    else (parseString rest).map (fun p => (c :: p.1, p.2))

/-- Parse the members of a non-empty JSON object (after the opening
brace), consuming the closing brace; `fuel` bounds the number of
members. -/
def parseMembers : Nat → List Char → Option (List (String × String))
  | 0, _ => none
  | Nat.succ fuel, l =>
    match l with
    | [] => none
    | c :: rest =>
      if c = '\"' then
        match parseString rest with
        | none => none
        | some (k, rest2) =>
          match rest2 with
          | c1 :: c2 :: rest3 =>
            if c1 = ':' ∧ c2 = '\"' then
              match parseString rest3 with
              | none => none
              | some (v, rest4) =>
                match rest4 with
                | [] => none
                | c3 :: rest5 =>
                  if c3 = ',' then
                    match parseMembers fuel rest5 with
                    | some ms => some ((String.mk k, String.mk v) :: ms)
                    | none => none
                  else if c3 = '}' then
                    if rest5 = [] then some [(String.mk k, String.mk v)]
                    else none
                  else none
            else none
          | _ => none
      else none

/-- The server-side parse of a flat string-to-string JSON object body. -/
def jsonParseObject (s : String) : Option (List (String × String)) :=
  match s.data with
  | [] => none
  | c :: rest =>
    if c = '{' then
      if rest = ['}'] then some [] else parseMembers rest.length rest
    else none

theorem hexVal_hexDigitChar (n : Nat) (h : n < 16) :
    hexVal (hexDigitChar n) = some n := by
  interval_cases n <;> rfl

theorem parseString_escapeList (s rest : List Char) :
    parseString (escapeList s ++ '\"' :: rest) = some (s, rest) := by
  induction s with
  | nil =>
    rw [escapeList, List.nil_append, parseString.eq_def]
    simp
  | cons c s ih =>
    rw [escapeList, List.append_assoc]
    by_cases h1 : c = '\"'
    · subst h1; simp only [escapeChar, reduceIte, List.cons_append,
        List.nil_append]
      rw [parseString.eq_def]; simp [ih]
    · by_cases h2 : c = '\\'
      · subst h2; simp only [escapeChar, reduceIte, List.cons_append,
          List.nil_append]
        rw [parseString.eq_def]; simp [ih]
      · by_cases h3 : c = Char.ofNat 8
        · subst h3; simp only [escapeChar, reduceIte, List.cons_append,
            List.nil_append]
          rw [parseString.eq_def]; simp [ih]
        · by_cases h4 : c = Char.ofNat 12
          · subst h4; simp only [escapeChar, reduceIte, List.cons_append,
              List.nil_append]
            rw [parseString.eq_def]; simp [ih]
          · by_cases h5 : c = Char.ofNat 10
            · subst h5; simp only [escapeChar, reduceIte, List.cons_append,
                List.nil_append]
              rw [parseString.eq_def]; simp [ih]
            · by_cases h6 : c = Char.ofNat 13
              · subst h6; simp only [escapeChar, reduceIte, List.cons_append,
                  List.nil_append]
                rw [parseString.eq_def]; simp [ih]
              · by_cases h7 : c = Char.ofNat 9
                · subst h7; simp only [escapeChar, reduceIte, List.cons_append,
                    List.nil_append]
                  rw [parseString.eq_def]; simp [ih]
                · by_cases h8 : c.toNat < 32
                  · rw [escapeChar, if_neg h1, if_neg h2, if_neg h3, if_neg h4,
                      if_neg h5, if_neg h6, if_neg h7, if_pos h8]
                    have hdiv : c.toNat / 16 < 16 := by omega
                    have hmod : c.toNat % 16 < 16 := by omega
                    have h0 : hexVal '0' = some 0 := rfl
                    simp only [List.cons_append, List.nil_append]
                    rw [parseString.eq_def]
                    simp only [reduceIte, h0, hexVal_hexDigitChar _ hdiv,
                      hexVal_hexDigitChar _ hmod, ih]
                    simp only [Option.map_some', Option.some.injEq, Prod.mk.injEq]
                    have harith : c.toNat / 16 * 16 + c.toNat % 16 = c.toNat := by
                      omega
                    simp [harith, Char.ofNat_toNat]
                  · rw [escapeChar, if_neg h1, if_neg h2, if_neg h3, if_neg h4,
                      if_neg h5, if_neg h6, if_neg h7, if_neg h8]
                    simp only [List.cons_append, List.nil_append]
                    rw [parseString.eq_def]
                    simp [h1, h2, h8, ih]

theorem parseMembers_membersChars (m : List (String × String)) :
    ∀ fuel : Nat, m ≠ [] → m.length ≤ fuel →
      parseMembers fuel (membersChars m ++ ['}']) = some m := by
  induction m with
  | nil => intro fuel h _; exact absurd rfl h
  | cons p ps ih =>
    intro fuel _ hlen
    cases fuel with
    | zero => simp at hlen
    | succ fuel =>
      cases ps with
      | nil =>
        simp [membersChars, entryChars, parseMembers, parseString_escapeList]
      | cons q qs =>
        have hrec : parseMembers fuel (membersChars (q :: qs) ++ ['}'])
            = some (q :: qs) := by
          refine ih fuel (by intro hbad; cases hbad) ?_
          simp only [List.length_cons] at hlen ⊢
          omega
        simp [membersChars, entryChars, parseMembers, parseString_escapeList,
          hrec]

theorem length_le_membersChars (m : List (String × String)) :
    m.length ≤ (membersChars m).length := by
  induction m with
  | nil => simp [membersChars]
  | cons p ps ih =>
    cases ps with
    | nil => simp [membersChars, entryChars]
    | cons q qs =>
      simp only [membersChars, List.length_cons, List.length_append,
        entryChars] at ih ⊢
      omega

theorem membersChars_cons_shape (p : String × String)
    (ps : List (String × String)) :
    ∃ t, membersChars (p :: ps) = '\"' :: t := by
  cases ps with
  | nil => exact ⟨_, rfl⟩
  | cons q qs => exact ⟨_, rfl⟩

/-- C8: round trip of the default serializer.  The default
`prepareData` is the identity, and for every payload map whose values
are all primitive strings, serializing with the default
`serializeData` (`JSON.stringify`) and parsing the resulting body
reconstructs exactly the key/value list that was passed in. -/
theorem serialize_parse_round_trip (m : List (String × String)) :
    prepareDataDefault m = m
    ∧ jsonParseObject (serializeData (prepareDataDefault m)) = some m := by
  refine ⟨rfl, ?_⟩
  show jsonParseObject (serializeData m) = some m
  cases m with
  | nil => rfl
  | cons p ps =>
    obtain ⟨t, ht⟩ := membersChars_cons_shape p ps
    have hne : membersChars (p :: ps) ++ ['}'] ≠ ['}'] := by
      rw [ht]
      intro hbad
      have := congrArg List.length hbad
      simp at this
    have hfuel : (p :: ps).length ≤ (membersChars (p :: ps) ++ ['}']).length := by
      have := length_le_membersChars (p :: ps)
      simp only [List.length_append, List.length_cons] at this ⊢
      omega
    show jsonParseObject (String.mk ('{' :: (membersChars (p :: ps) ++ ['}'])))
      = some (p :: ps)
    rw [jsonParseObject]
    simp only [reduceIte, if_neg hne]
    exact parseMembers_membersChars (p :: ps) _ (by intro hbad; cases hbad) hfuel

end SleepyForm
